import Mathlib

/-!
Verification of the anchor-survey library (survey/survey.py).

The Python code is embedded shallowly over the real numbers:

* numpy float arrays of length N become functions `Fin n → ℝ`;
* `np.mean` becomes `npMean` (sum divided by the cast length);
* `np.linalg.lstsq(M, b, rcond=None)` for the N×2 matrix used by the
  solver is modelled by `lstsq2`, a closed form of the Moore–Penrose
  pseudoinverse solution, following numpy's documented contract (the
  minimum-norm least-squares solution); that `lstsq2` really produces
  the minimum-norm least-squares solution is proved below
  (`lstsq2_isMinNormLS`), so nothing rests on the model alone;
* `np.sqrt` of a negative operand yields NaN in numpy; values that can
  be NaN are embedded as `Option ℝ` with `none` standing for NaN;
* a Python `for` loop with `break` becomes structural recursion on the
  remaining fuel, and the `NameError` raised when the loop body never
  ran (so the loop variable is unbound at the `return`) is embedded as
  the `none` result of `calculate_anchor_position`.
-/

namespace Survey

noncomputable section

open scoped BigOperators

/-- Embedding of `dms_to_dd(degrees, minutes, seconds, direction=None)`
from survey.py (the scalar path; the array path applies the same
formula elementwise).  When `direction` is `None` the source computes
`np.where(np.asarray(degrees) < 0, 'S', 'W')`, then
`dd = degrees + minutes / 60 + seconds / 3600`, negated when the
direction is a member of `['S', 'W']`. -/
def dms_to_dd (degrees minutes seconds : ℝ)
    (direction : Option String) : ℝ :=
  let dir : String :=
    match direction with
    | none => if degrees < 0 then ("S") else ("W")
    | some s => s
  let dd := degrees + minutes / 60 + seconds / 3600
  if dir = ("S") ∨ dir = ("W") then -dd else dd

/-- Embedding of `np.radians`. -/
def radians (x : ℝ) : ℝ := x * (Real.pi / 180)

/-- Embedding of `np.degrees`. -/
def degrees (x : ℝ) : ℝ := x * (180 / Real.pi)

/-- Embedding of `latlon_to_xy(lat, lon, ref_lat, ref_lon)` from
survey.py: `x = R*dlon*cos(radians(ref_lat))`, `y = R*dlat` with
`R = 6371000`. -/
def latlon_to_xy (lat lon ref_lat ref_lon : ℝ) : ℝ × ℝ :=
  let R : ℝ := 6371000
  let dlat := radians (lat - ref_lat)
  let dlon := radians (lon - ref_lon)
  (R * dlon * Real.cos (radians ref_lat), R * dlat)

/-- Embedding of `xy_to_latlon(x, y, ref_lat, ref_lon)` from survey.py:
`lat = ref_lat + degrees(y/R)`,
`lon = ref_lon + degrees(x/(R*cos(radians(ref_lat))))`. -/
def xy_to_latlon (x y ref_lat ref_lon : ℝ) : ℝ × ℝ :=
  let R : ℝ := 6371000
  let dlat := y / R
  let dlon := x / (R * Real.cos (radians ref_lat))
  (ref_lat + degrees dlat, ref_lon + degrees dlon)

/-- Embedding of `np.mean` for a length-`n` vector. -/
def npMean {n : ℕ} (f : Fin n → ℝ) : ℝ := (∑ i, f i) / n

/-- Embedding of `rms_error(p, x, y, dist)` from survey.py:
`sqrt(mean((sqrt((x-xi)**2 + (y-yi)**2) - dist)**2))`. -/
def rms_error {n : ℕ} (p : ℝ × ℝ) (x y dist : Fin n → ℝ) : ℝ :=
  Real.sqrt ((∑ i, (Real.sqrt ((x i - p.1) ^ 2 + (y i - p.2) ^ 2) - dist i) ^ 2) / n)

/-- Embedding of the per-station range computation
`horizontal_range = np.sqrt(slant_range**2 - (drop_depth - trans_depth)**2)`
with `slant_range = (time / 2) * sound_speed`, as written in survey.py's
main block and in survey_gui.py's `run_survey`.  `np.sqrt` of a
negative operand yields NaN, embedded here as `none`; the source has no
check and no error is ever raised. -/
def horizontal_range (time sound_speed drop_depth trans_depth : ℝ) : Option ℝ :=
  let slant := (time / 2) * sound_speed
  let h2 := slant ^ 2 - (drop_depth - trans_depth) ^ 2
  if h2 < 0 then none else some (Real.sqrt h2)

end

/-- Claim C5: the claim says that with the hemisphere argument omitted the
sign of the result follows the sign of the degrees value.  In the code
the omitted-direction fallback is `np.where(degrees < 0, 'S', 'W')`:
both branches are negating directions, so the result is negated
unconditionally — non-negative degrees yield a negative result and
negative degrees yield a positive one, contradicting the claim in both
directions. -/
theorem dms_to_dd_default_negates_both_ways :
    Survey.dms_to_dd 35 57 4 none < 0 ∧ 0 < Survey.dms_to_dd (-35) 57 4 none := by
  constructor <;> norm_num [Survey.dms_to_dd]

/-- Claim C4: evaluation of the range computation at a station whose slant
range `(time/2)*sound_speed = 15` is smaller than the depth difference
`|36 - 5| = 31`.  The code computes `np.sqrt` of the negative number
`15^2 - 31^2` — a silent NaN (embedded as `none`); no
`InvalidRangeError` (or any other error) exists anywhere in the code,
and the NaN flows on into `calculate_anchor_position`. -/
theorem horizontal_range_silent_nan :
    (0.02 / 2) * 1500 < |(36 : ℝ) - 5| ∧
      Survey.horizontal_range 0.02 1500 36 5 = none := by
  constructor
  · norm_num
  · norm_num [Survey.horizontal_range]

/-- Claim C6 counterexample: for a negative degrees value with an explicit
hemisphere, the code does not take the absolute value of the degrees:
`dms_to_dd(-35, 0, 0, 'N')` returns `-35`, not
`|  -35| + 0/60 + 0/3600 = 35` as the claim's formula requires. -/
theorem dms_to_dd_neg_degrees_counterexample :
    Survey.dms_to_dd (-35) 0 0 (some ("N")) = -35 ∧
      Survey.dms_to_dd (-35) 0 0 (some ("N")) ≠
        |(-35 : ℝ)| + 0 / 60 + 0 / 3600 := by
  have hval : Survey.dms_to_dd (-35) 0 0 (some ("N")) = -35 := by
    simp [Survey.dms_to_dd]
  refine ⟨hval, ?_⟩
  rw [hval]
  norm_num

/-- Claim C6 (amended): for every NON-NEGATIVE degrees value, minutes,
seconds and explicit hemisphere letter in {N, S, E, W}, `dms_to_dd`
returns `|degrees| + minutes/60 + seconds/3600`, negated exactly when
the hemisphere is S or W; and the two concrete scenarios hold:
`dms_to_dd(35, 57, 4, 'N')` is within `1e-4` of `35.9511` and
`dms_to_dd(75, 7, 49, 'W')` is within `1e-4` of `-75.1303`. -/
theorem dms_to_dd_explicit_direction :
    (∀ deg mins secs : ℝ, ∀ dir : String, 0 ≤ deg →
      dir ∈ [("N"), ("S"), ("E"), ("W")] →
      Survey.dms_to_dd deg mins secs (some dir) =
        (if dir = ("S") ∨ dir = ("W") then -1 else 1) *
          (|deg| + mins / 60 + secs / 3600)) ∧
    |Survey.dms_to_dd 35 57 4 (some ("N")) - 35.9511| ≤ 1e-4 ∧
    |Survey.dms_to_dd 75 7 49 (some ("W")) - (-75.1303)| ≤ 1e-4 := by
  refine ⟨fun deg mins secs dir hdeg _ => ?_, ?_, ?_⟩
  · rw [abs_of_nonneg hdeg]
    simp only [Survey.dms_to_dd]
    split <;> ring
  · have hval : Survey.dms_to_dd 35 57 4 (some ("N")) = 35 + 57 / 60 + 4 / 3600 := by
      simp [Survey.dms_to_dd]
    rw [hval, abs_le]
    norm_num
  · have hval : Survey.dms_to_dd 75 7 49 (some ("W")) = -(75 + 7 / 60 + 49 / 3600) := by
      simp [Survey.dms_to_dd]
    rw [hval, abs_le]
    norm_num

/-- Witness for the amended C6 theorem at degrees 35, minutes 57,
seconds 4, hemisphere N. -/
theorem dms_to_dd_explicit_direction_witness :
    Survey.dms_to_dd 35 57 4 (some ("N")) =
      (if ("N" : String) = ("S") ∨ ("N" : String) = ("W") then -1 else 1) *
        (|(35 : ℝ)| + 57 / 60 + 4 / 3600) :=
  dms_to_dd_explicit_direction.1 35 57 4 ("N") (by norm_num) (by simp)

/-- Claim C7: for every point and reference latitude strictly inside the
open interval (-90, 90) (at a pole the tangent-plane projection is
degenerate, as the spec itself notes), with the reference within ±2°
of the point, composing `latlon_to_xy` with `xy_to_latlon` about the
same reference recovers the original point to within 1e-6 degrees (in
fact exactly, in real arithmetic). -/
theorem latlon_xy_roundtrip (lat lon ref_lat ref_lon : ℝ)
    (h1 : |lat - ref_lat| ≤ 2) (h2 : |lon - ref_lon| ≤ 2)
    (h3 : |ref_lat| < 90) :
    |(Survey.xy_to_latlon (Survey.latlon_to_xy lat lon ref_lat ref_lon).1
        (Survey.latlon_to_xy lat lon ref_lat ref_lon).2 ref_lat ref_lon).1 - lat| ≤ 1e-6 ∧
    |(Survey.xy_to_latlon (Survey.latlon_to_xy lat lon ref_lat ref_lon).1
        (Survey.latlon_to_xy lat lon ref_lat ref_lon).2 ref_lat ref_lon).2 - lon| ≤ 1e-6 := by
  have hπ : (0 : ℝ) < Real.pi := Real.pi_pos
  have hπ' : Real.pi ≠ 0 := ne_of_gt hπ
  have hcos : Real.cos (Survey.radians ref_lat) ≠ 0 := by
    have hlt : -90 < ref_lat ∧ ref_lat < 90 := abs_lt.mp h3
    have hmem : Survey.radians ref_lat ∈ Set.Ioo (-(Real.pi / 2)) (Real.pi / 2) := by
      simp only [Survey.radians, Set.mem_Ioo]
      constructor
      · nlinarith [hlt.1, hπ]
      · nlinarith [hlt.2, hπ]
    exact ne_of_gt (Real.cos_pos_of_mem_Ioo hmem)
  have e1 : (Survey.xy_to_latlon (Survey.latlon_to_xy lat lon ref_lat ref_lon).1
      (Survey.latlon_to_xy lat lon ref_lat ref_lon).2 ref_lat ref_lon).1 = lat := by
    simp only [Survey.xy_to_latlon, Survey.latlon_to_xy, Survey.radians, Survey.degrees]
    field_simp
    ring
  have e2 : (Survey.xy_to_latlon (Survey.latlon_to_xy lat lon ref_lat ref_lon).1
      (Survey.latlon_to_xy lat lon ref_lat ref_lon).2 ref_lat ref_lon).2 = lon := by
    simp only [Survey.xy_to_latlon, Survey.latlon_to_xy, Survey.degrees]
    rw [show (6371000 : ℝ) * (Survey.radians (lon - ref_lon)) *
          Real.cos (Survey.radians ref_lat) /
          (6371000 * Real.cos (Survey.radians ref_lat)) =
          Survey.radians (lon - ref_lon) by
        field_simp
        ring]
    simp only [Survey.radians]
    field_simp
  rw [e1, e2]
  norm_num

/-- Witness for the C7 round-trip theorem at the point (1, 1) with
reference (0, 0). -/
theorem latlon_xy_roundtrip_witness :
    |(Survey.xy_to_latlon (Survey.latlon_to_xy 1 1 0 0).1
        (Survey.latlon_to_xy 1 1 0 0).2 0 0).1 - 1| ≤ 1e-6 ∧
    |(Survey.xy_to_latlon (Survey.latlon_to_xy 1 1 0 0).1
        (Survey.latlon_to_xy 1 1 0 0).2 0 0).2 - 1| ≤ 1e-6 :=
  latlon_xy_roundtrip 1 1 0 0 (by norm_num) (by norm_num) (by norm_num)

/-- Claim C8: `rms_error` returns the square root of the mean squared
difference between the modeled ranges and the observed ranges; this
value is always non-negative, and it is zero exactly when every
modeled range equals the corresponding observed range. -/
theorem rms_error_spec {n : ℕ} (p : ℝ × ℝ) (x y dist : Fin n → ℝ) :
    Survey.rms_error p x y dist =
      Real.sqrt ((∑ i, (Real.sqrt ((x i - p.1) ^ 2 + (y i - p.2) ^ 2) - dist i) ^ 2) / n) ∧
    0 ≤ Survey.rms_error p x y dist ∧
    (Survey.rms_error p x y dist = 0 ↔
      ∀ i, Real.sqrt ((x i - p.1) ^ 2 + (y i - p.2) ^ 2) = dist i) := by
  refine ⟨rfl, Real.sqrt_nonneg _, ?_⟩
  rcases Nat.eq_zero_or_pos n with h0 | hpos
  · subst h0
    simp [Survey.rms_error]
  · have hn : (0 : ℝ) < n := by exact_mod_cast hpos
    have hterm : ∀ i : Fin n, i ∈ Finset.univ →
        0 ≤ (Real.sqrt ((x i - p.1) ^ 2 + (y i - p.2) ^ 2) - dist i) ^ 2 :=
      fun i _ => sq_nonneg _
    have hS : 0 ≤ ∑ i, (Real.sqrt ((x i - p.1) ^ 2 + (y i - p.2) ^ 2) - dist i) ^ 2 :=
      Finset.sum_nonneg hterm
    constructor
    · intro h
      have hle : (∑ i, (Real.sqrt ((x i - p.1) ^ 2 + (y i - p.2) ^ 2) - dist i) ^ 2) / n ≤ 0 :=
        Real.sqrt_eq_zero'.mp h
      have hS0 : (∑ i, (Real.sqrt ((x i - p.1) ^ 2 + (y i - p.2) ^ 2) - dist i) ^ 2) = 0 := by
        have hq : (∑ i, (Real.sqrt ((x i - p.1) ^ 2 + (y i - p.2) ^ 2) - dist i) ^ 2) / n = 0 :=
          le_antisymm hle (div_nonneg hS hn.le)
        rcases div_eq_zero_iff.mp hq with h2 | h2
        · exact h2
        · exact absurd h2 (ne_of_gt hn)
      intro i
      have hz := (Finset.sum_eq_zero_iff_of_nonneg hterm).mp hS0 i (Finset.mem_univ i)
      have hz' := (pow_eq_zero_iff (two_ne_zero : (2 : ℕ) ≠ 0)).mp hz
      linarith [sub_eq_zero.mp hz']
    · intro h
      have : ∀ i : Fin n, i ∈ Finset.univ →
          (Real.sqrt ((x i - p.1) ^ 2 + (y i - p.2) ^ 2) - dist i) ^ 2 = 0 := by
        intro i _
        rw [h i]
        ring
      rw [Survey.rms_error, Finset.sum_eq_zero this]
      simp

noncomputable section

open scoped Classical

/-- Dot product of two length-`n` real vectors, written as the sum that
numpy's matrix products reduce to. -/
def sdot {n : ℕ} (f g : Fin n → ℝ) : ℝ := ∑ i, f i * g i

/-- Model of `np.linalg.lstsq(M, b, rcond=None)` for the N×2 matrix `M`
whose two columns are `u` and `v`, as used by
`calculate_anchor_position`.  numpy's documented contract is that it
returns the least-squares solution, and the minimum-norm one when `M`
is rank-deficient; this closed form is the Moore–Penrose pseudoinverse
solution, split on the rank of the Gram matrix of `M` (rank 2, rank 1,
rank 0).  Theorem `lstsq2_isMinNormLS` below proves that this function
satisfies that contract, so the claims do not rest on the model alone. -/
def lstsq2 {n : ℕ} (u v b : Fin n → ℝ) : ℝ × ℝ :=
  if sdot u u * sdot v v - sdot u v * sdot u v ≠ 0 then
    ((sdot v v * sdot u b - sdot u v * sdot v b) /
        (sdot u u * sdot v v - sdot u v * sdot u v),
     (sdot u u * sdot v b - sdot u v * sdot u b) /
        (sdot u u * sdot v v - sdot u v * sdot u v))
  else if sdot u u + sdot v v ≠ 0 then
    ((sdot u u * sdot u b + sdot u v * sdot v b) / (sdot u u + sdot v v) ^ 2,
     (sdot u v * sdot u b + sdot v v * sdot v b) / (sdot u u + sdot v v) ^ 2)
  else (0, 0)

/-- The per-iteration update `xx` of `calculate_anchor_position`:
`xx, residuals, rank, s = np.linalg.lstsq(np.transpose(A), b, rcond=None)`
with `A = [2*(x-xi), 2*(y-yi)]` and `b = (x-xi)**2 + (y-yi)**2 - d**2`,
at the current estimate `p = (xi, yi)`. -/
def gnDelta {n : ℕ} (x y d : Fin n → ℝ) (p : ℝ × ℝ) : ℝ × ℝ :=
  lstsq2 (fun i => 2 * (x i - p.1)) (fun i => 2 * (y i - p.2))
    (fun i => (x i - p.1) ^ 2 + (y i - p.2) ^ 2 - d i ^ 2)

/-- One full pass of the loop body (the state after
`xi = xi + xx[0]; yi = yi + xx[1]`). -/
def gnIter {n : ℕ} (x y d : Fin n → ℝ) (p : ℝ × ℝ) : ℝ × ℝ :=
  (p.1 + (gnDelta x y d p).1, p.2 + (gnDelta x y d p).2)

/-- Embedding of the `for iteration in range(max_iter)` loop of
`calculate_anchor_position`: `fuel` is the number of loop passes still
allowed (at least 1 when called), `iter` the Python loop variable for
the current pass.  The pass updates the estimate, then breaks when
`np.linalg.norm(xx) < tol` or when the passes are exhausted, returning
the updated estimate and the loop variable at break/exhaustion. -/
def gnLoop {n : ℕ} (x y d : Fin n → ℝ) (tol : ℝ) :
    ℕ → ℕ → ℝ × ℝ → ℝ × ℝ × ℕ
  | 0, iter, p => (p.1, p.2, iter)
  | fuel + 1, iter, p =>
    let xx := gnDelta x y d p
    let p' := (p.1 + xx.1, p.2 + xx.2)
    if Real.sqrt (xx.1 ^ 2 + xx.2 ^ 2) < tol ∨ fuel = 0 then (p'.1, p'.2, iter)
    else gnLoop x y d tol fuel (iter + 1) p'

/-- The default `tol=0.01` of `calculate_anchor_position`. -/
def default_tol : ℝ := 0.01

/-- The default `max_iter=100` of `calculate_anchor_position`. -/
def default_max_iter : ℤ := 100

/-- Embedding of `calculate_anchor_position(x, y, d, tol, max_iter)`
from survey.py.  The initial guess is the centroid
`xi = np.mean(x); yi = np.mean(y)`.  When `max_iter <= 0` the
`range(max_iter)` loop body never executes, so the loop variable
`iteration` is unbound at the `return` statement and Python raises a
`NameError`; that failure is embedded as `none`. -/
def calculate_anchor_position {n : ℕ} (x y d : Fin n → ℝ)
    (tol : ℝ) (max_iter : ℤ) : Option (ℝ × ℝ × ℕ) :=
  if max_iter ≤ 0 then none
  else some (gnLoop x y d tol max_iter.toNat 0 (npMean x, npMean y))

/-- The trajectory of estimates of the solver: `traj x y d j` is the
estimate after `j` loop passes, starting from the centroid. -/
def traj {n : ℕ} (x y d : Fin n → ℝ) (j : ℕ) : ℝ × ℝ :=
  (gnIter x y d)^[j] (npMean x, npMean y)

/-- Pass `j` of the solver ends in a break: the update computed at the
estimate reached after `j` passes has norm below `tol`. -/
def convAt {n : ℕ} (x y d : Fin n → ℝ) (tol : ℝ) (j : ℕ) : Prop :=
  Real.sqrt ((gnDelta x y d (traj x y d j)).1 ^ 2 +
    (gnDelta x y d (traj x y d j)).2 ^ 2) < tol

/-- Spec-side definition (following the claim's words): `Δ` is a
least-squares solution of the system whose i-th row reads
`u i * Δ.1 + v i * Δ.2 = b i` when it minimizes the sum of squared
residuals. -/
def IsLeastSquaresSol {n : ℕ} (u v b : Fin n → ℝ) (Δ : ℝ × ℝ) : Prop :=
  ∀ q : ℝ × ℝ,
    ∑ i, (u i * Δ.1 + v i * Δ.2 - b i) ^ 2 ≤
      ∑ i, (u i * q.1 + v i * q.2 - b i) ^ 2

/-- Spec-side definition (following the claim's words): `Δ` is the
minimum-norm least-squares solution when it is a least-squares solution
of minimal Euclidean norm among all least-squares solutions. -/
def IsMinNormLSSol {n : ℕ} (u v b : Fin n → ℝ) (Δ : ℝ × ℝ) : Prop :=
  IsLeastSquaresSol u v b Δ ∧
    ∀ q : ℝ × ℝ, IsLeastSquaresSol u v b q →
      Δ.1 ^ 2 + Δ.2 ^ 2 ≤ q.1 ^ 2 + q.2 ^ 2

/-- The normal equations of the 2-unknown least-squares system. -/
def NormalEq {n : ℕ} (u v b : Fin n → ℝ) (Δ : ℝ × ℝ) : Prop :=
  sdot u u * Δ.1 + sdot u v * Δ.2 = sdot u b ∧
    sdot u v * Δ.1 + sdot v v * Δ.2 = sdot v b

end

lemma resid_expand {n : ℕ} (u v b : Fin n → ℝ) (s t : ℝ) :
    ∑ i, (u i * s + v i * t - b i) ^ 2 =
      sdot u u * s ^ 2 + 2 * sdot u v * (s * t) + sdot v v * t ^ 2
        - 2 * sdot u b * s - 2 * sdot v b * t + sdot b b := by
  simp only [sdot, Finset.sum_mul, Finset.mul_sum, ← Finset.sum_add_distrib,
    ← Finset.sum_sub_distrib]
  exact Finset.sum_congr rfl fun i _ => by ring

lemma qform_eq {n : ℕ} (u v : Fin n → ℝ) (s t : ℝ) :
    sdot u u * s ^ 2 + 2 * sdot u v * (s * t) + sdot v v * t ^ 2 =
      ∑ i, (u i * s + v i * t) ^ 2 := by
  have h := resid_expand u v (fun _ => 0) s t
  simp only [sub_zero, sdot, mul_zero, Finset.sum_const_zero, zero_mul] at h
  simpa [sdot] using h.symm

lemma qform_nonneg {n : ℕ} (u v : Fin n → ℝ) (s t : ℝ) :
    0 ≤ sdot u u * s ^ 2 + 2 * sdot u v * (s * t) + sdot v v * t ^ 2 := by
  rw [qform_eq]
  exact Finset.sum_nonneg fun i _ => sq_nonneg _

lemma qform_zero {n : ℕ} (u v : Fin n → ℝ) (s t : ℝ)
    (h : sdot u u * s ^ 2 + 2 * sdot u v * (s * t) + sdot v v * t ^ 2 = 0) :
    sdot u u * s + sdot u v * t = 0 ∧ sdot u v * s + sdot v v * t = 0 := by
  rw [qform_eq] at h
  have hpt : ∀ i : Fin n, u i * s + v i * t = 0 := by
    intro i
    have hz := (Finset.sum_eq_zero_iff_of_nonneg fun i _ => sq_nonneg _).mp h i
      (Finset.mem_univ i)
    exact (pow_eq_zero_iff (two_ne_zero : (2 : ℕ) ≠ 0)).mp hz
  constructor
  · have : sdot u u * s + sdot u v * t = ∑ i, u i * (u i * s + v i * t) := by
      simp only [sdot, Finset.sum_mul, ← Finset.sum_add_distrib]
      exact Finset.sum_congr rfl fun i _ => by ring
    rw [this]
    exact Finset.sum_eq_zero fun i _ => by rw [hpt i, mul_zero]
  · have : sdot u v * s + sdot v v * t = ∑ i, v i * (u i * s + v i * t) := by
      simp only [sdot, Finset.sum_mul, ← Finset.sum_add_distrib]
      exact Finset.sum_congr rfl fun i _ => by ring
    rw [this]
    exact Finset.sum_eq_zero fun i _ => by rw [hpt i, mul_zero]

lemma key_identity {n : ℕ} (u v b : Fin n → ℝ) (Δ q : ℝ × ℝ)
    (hNE : NormalEq u v b Δ) :
    ∑ i, (u i * q.1 + v i * q.2 - b i) ^ 2 =
      ∑ i, (u i * Δ.1 + v i * Δ.2 - b i) ^ 2 +
        (sdot u u * (q.1 - Δ.1) ^ 2 +
          2 * sdot u v * ((q.1 - Δ.1) * (q.2 - Δ.2)) +
          sdot v v * (q.2 - Δ.2) ^ 2) := by
  obtain ⟨h1, h2⟩ := hNE
  rw [resid_expand, resid_expand]
  linear_combination (2 * (q.1 - Δ.1)) * h1 + (2 * (q.2 - Δ.2)) * h2

lemma normalEq_isLS {n : ℕ} (u v b : Fin n → ℝ) (Δ : ℝ × ℝ)
    (hNE : NormalEq u v b Δ) : IsLeastSquaresSol u v b Δ := by
  intro q
  rw [key_identity u v b Δ q hNE]
  linarith [qform_nonneg u v (q.1 - Δ.1) (q.2 - Δ.2)]

lemma ls_diff {n : ℕ} (u v b : Fin n → ℝ) (Δ q : ℝ × ℝ)
    (hNE : NormalEq u v b Δ) (hq : IsLeastSquaresSol u v b q) :
    sdot u u * (q.1 - Δ.1) + sdot u v * (q.2 - Δ.2) = 0 ∧
      sdot u v * (q.1 - Δ.1) + sdot v v * (q.2 - Δ.2) = 0 := by
  have hΔ := normalEq_isLS u v b Δ hNE
  have heq : ∑ i, (u i * q.1 + v i * q.2 - b i) ^ 2 =
      ∑ i, (u i * Δ.1 + v i * Δ.2 - b i) ^ 2 :=
    le_antisymm (hq Δ) (hΔ q)
  have hQ0 : sdot u u * (q.1 - Δ.1) ^ 2 +
      2 * sdot u v * ((q.1 - Δ.1) * (q.2 - Δ.2)) +
      sdot v v * (q.2 - Δ.2) ^ 2 = 0 := by
    have hk := key_identity u v b Δ q hNE
    linarith
  exact qform_zero u v _ _ hQ0

lemma minNorm_of_normalEq_range {n : ℕ} (u v b : Fin n → ℝ) (Δ : ℝ × ℝ)
    (hNE : NormalEq u v b Δ)
    (hrange : ∃ w1 w2 : ℝ,
      Δ = (sdot u u * w1 + sdot u v * w2, sdot u v * w1 + sdot v v * w2)) :
    IsMinNormLSSol u v b Δ := by
  refine ⟨normalEq_isLS u v b Δ hNE, fun q hq => ?_⟩
  obtain ⟨hz1, hz2⟩ := ls_diff u v b Δ q hNE hq
  obtain ⟨w1, w2, hw⟩ := hrange
  have hinner : Δ.1 * (q.1 - Δ.1) + Δ.2 * (q.2 - Δ.2) = 0 := by
    have e1 : Δ.1 = sdot u u * w1 + sdot u v * w2 := by rw [hw]
    have e2 : Δ.2 = sdot u v * w1 + sdot v v * w2 := by rw [hw]
    linear_combination (q.1 - Δ.1) * e1 + (q.2 - Δ.2) * e2 + w1 * hz1 + w2 * hz2
  nlinarith [sq_nonneg (q.1 - Δ.1), sq_nonneg (q.2 - Δ.2), hinner]

lemma lagrange_double {n : ℕ} (u v : Fin n → ℝ) :
    2 * (sdot u u * sdot v v - sdot u v * sdot u v) =
      ∑ i, ∑ j, (u i * v j - u j * v i) ^ 2 := by
  have hae : sdot u u * sdot v v = ∑ i, ∑ j, (u i * u i) * (v j * v j) := by
    simp only [sdot]
    exact Finset.sum_mul_sum _ _ _ _
  have hcc : sdot u v * sdot u v = ∑ i, ∑ j, (u i * v i) * (u j * v j) := by
    simp only [sdot]
    exact Finset.sum_mul_sum _ _ _ _
  have hea : sdot v v * sdot u u = ∑ i, ∑ j, (v i * v i) * (u j * u j) := by
    simp only [sdot]
    exact Finset.sum_mul_sum _ _ _ _
  calc 2 * (sdot u u * sdot v v - sdot u v * sdot u v)
      = sdot u u * sdot v v - 2 * (sdot u v * sdot u v) + sdot v v * sdot u u := by
        ring
    _ = (∑ i, ∑ j, (u i * u i) * (v j * v j)) -
          2 * (∑ i, ∑ j, (u i * v i) * (u j * v j)) +
          (∑ i, ∑ j, (v i * v i) * (u j * u j)) := by
        rw [hae, hcc, hea]
    _ = ∑ i, ∑ j, ((u i * u i) * (v j * v j) -
          2 * ((u i * v i) * (u j * v j)) + (v i * v i) * (u j * u j)) := by
        simp only [Finset.mul_sum, ← Finset.sum_sub_distrib, ← Finset.sum_add_distrib]
    _ = ∑ i, ∑ j, (u i * v j - u j * v i) ^ 2 :=
        Finset.sum_congr rfl fun i _ => Finset.sum_congr rfl fun j _ => by ring

lemma rank_deficient_identities {n : ℕ} (u v b : Fin n → ℝ)
    (hdet : sdot u u * sdot v v - sdot u v * sdot u v = 0) :
    sdot v v * sdot u b = sdot u v * sdot v b ∧
      sdot u v * sdot u b = sdot u u * sdot v b := by
  have hpt : ∀ i j : Fin n, u i * v j = u j * v i := by
    have h0 : ∑ i, ∑ j, (u i * v j - u j * v i) ^ 2 = 0 := by
      rw [← lagrange_double, hdet, mul_zero]
    intro i j
    have houter := (Finset.sum_eq_zero_iff_of_nonneg fun i _ =>
      Finset.sum_nonneg fun j _ => sq_nonneg _).mp h0 i (Finset.mem_univ i)
    have hinner := (Finset.sum_eq_zero_iff_of_nonneg fun j _ =>
      sq_nonneg _).mp houter j (Finset.mem_univ j)
    have := (pow_eq_zero_iff (two_ne_zero : (2 : ℕ) ≠ 0)).mp hinner
    linarith [sub_eq_zero.mp this]
  constructor
  · have hexp : sdot v v * sdot u b - sdot u v * sdot v b =
        ∑ j, ∑ i, (v j * b i) * (u i * v j - u j * v i) := by
      simp only [sdot, Finset.sum_mul_sum, ← Finset.sum_sub_distrib]
      exact Finset.sum_congr rfl fun j _ => Finset.sum_congr rfl fun i _ => by ring
    have hz : ∑ j, ∑ i, ((v j * b i) * (u i * v j - u j * v i) : ℝ) = 0 :=
      Finset.sum_eq_zero fun j _ => Finset.sum_eq_zero fun i _ => by
        rw [hpt i j, sub_self, mul_zero]
    have : sdot v v * sdot u b - sdot u v * sdot v b = 0 := hexp.trans hz
    linarith
  · have hexp : sdot u v * sdot u b - sdot u u * sdot v b =
        ∑ j, ∑ i, (u j * b i) * (v j * u i - v i * u j) := by
      simp only [sdot, Finset.sum_mul_sum, ← Finset.sum_sub_distrib]
      exact Finset.sum_congr rfl fun j _ => Finset.sum_congr rfl fun i _ => by ring
    have hz : ∑ j, ∑ i, ((u j * b i) * (v j * u i - v i * u j) : ℝ) = 0 :=
      Finset.sum_eq_zero fun j _ => Finset.sum_eq_zero fun i _ => by
        have hzz : v j * u i - v i * u j = 0 := by
          rw [show v j * u i - v i * u j = u i * v j - u j * v i from by ring,
            hpt i j, sub_self]
        rw [hzz, mul_zero]
    have : sdot u v * sdot u b - sdot u u * sdot v b = 0 := hexp.trans hz
    linarith

lemma sdot_self_nonneg {n : ℕ} (u : Fin n → ℝ) : 0 ≤ sdot u u :=
  Finset.sum_nonneg fun i _ => mul_self_nonneg _

lemma sdot_eq_zero_of_self {n : ℕ} (u w : Fin n → ℝ) (h : sdot u u = 0) :
    sdot u w = 0 := by
  have hpt : ∀ i : Fin n, u i = 0 := by
    intro i
    have hz := (Finset.sum_eq_zero_iff_of_nonneg fun i _ =>
      mul_self_nonneg (u i)).mp h i (Finset.mem_univ i)
    exact mul_self_eq_zero.mp hz
  exact Finset.sum_eq_zero fun i _ => by rw [hpt i, zero_mul]

/-- The model of `np.linalg.lstsq` satisfies numpy's documented
contract: it returns a least-squares solution of the N×2 system, of
minimal norm among all least-squares solutions. -/
theorem lstsq2_isMinNormLS {n : ℕ} (u v b : Fin n → ℝ) :
    IsMinNormLSSol u v b (lstsq2 u v b) := by
  by_cases hdet : sdot u u * sdot v v - sdot u v * sdot u v ≠ 0
  · rw [lstsq2, if_pos hdet]
    apply minNorm_of_normalEq_range
    · constructor
      · dsimp only
        rw [← mul_div_assoc, ← mul_div_assoc, div_add_div_same, div_eq_iff hdet]
        ring
      · dsimp only
        rw [← mul_div_assoc, ← mul_div_assoc, div_add_div_same, div_eq_iff hdet]
        ring
    · refine ⟨(sdot v v * (sdot v v * sdot u b - sdot u v * sdot v b) -
          sdot u v * (sdot u u * sdot v b - sdot u v * sdot u b)) /
          (sdot u u * sdot v v - sdot u v * sdot u v) ^ 2,
        (sdot u u * (sdot u u * sdot v b - sdot u v * sdot u b) -
          sdot u v * (sdot v v * sdot u b - sdot u v * sdot v b)) /
          (sdot u u * sdot v v - sdot u v * sdot u v) ^ 2, ?_⟩
      apply Prod.ext
      · dsimp only
        rw [← mul_div_assoc, ← mul_div_assoc, div_add_div_same,
          div_eq_div_iff hdet (pow_ne_zero 2 hdet)]
        ring
      · dsimp only
        rw [← mul_div_assoc, ← mul_div_assoc, div_add_div_same,
          div_eq_div_iff hdet (pow_ne_zero 2 hdet)]
        ring
  · push_neg at hdet
    rw [lstsq2, if_neg (by simpa using hdet)]
    by_cases ht : sdot u u + sdot v v ≠ 0
    · rw [if_pos ht]
      obtain ⟨h1, h2⟩ := rank_deficient_identities u v b hdet
      have hc2 : sdot u v * sdot u v = sdot u u * sdot v v := by linarith
      have ht2 : ((sdot u u + sdot v v) ^ 2 : ℝ) ≠ 0 := pow_ne_zero 2 ht
      apply minNorm_of_normalEq_range
      · constructor
        · dsimp only
          rw [← mul_div_assoc, ← mul_div_assoc, div_add_div_same, div_eq_iff ht2]
          linear_combination sdot u b * hc2 - (sdot u u + sdot v v) * h1
        · dsimp only
          rw [← mul_div_assoc, ← mul_div_assoc, div_add_div_same, div_eq_iff ht2]
          linear_combination (sdot u u + sdot v v) * h2 + sdot v b * hc2
      · refine ⟨sdot u b / (sdot u u + sdot v v) ^ 2,
          sdot v b / (sdot u u + sdot v v) ^ 2, ?_⟩
        apply Prod.ext
        · dsimp only
          rw [← mul_div_assoc, ← mul_div_assoc, div_add_div_same]
        · dsimp only
          rw [← mul_div_assoc, ← mul_div_assoc, div_add_div_same]
    · push_neg at ht
      rw [if_neg (by simpa using ht)]
      have ha : sdot u u = 0 := by
        have hu := sdot_self_nonneg u
        have hv := sdot_self_nonneg v
        linarith
      have he : sdot v v = 0 := by
        have hu := sdot_self_nonneg u
        have hv := sdot_self_nonneg v
        linarith
      have hc : sdot u v = 0 := sdot_eq_zero_of_self u v ha
      have hg : sdot u b = 0 := sdot_eq_zero_of_self u b ha
      have hh : sdot v b = 0 := sdot_eq_zero_of_self v b he
      apply minNorm_of_normalEq_range
      · constructor
        · dsimp only
          rw [hg]
          ring
        · dsimp only
          rw [hh]
          ring
      · exact ⟨0, 0, by simp⟩

lemma gnLoop_succ_eq {n : ℕ} (x y d : Fin n → ℝ) (tol : ℝ) (f iter : ℕ) (p : ℝ × ℝ) :
    gnLoop x y d tol (f + 1) iter p =
      if Real.sqrt ((gnDelta x y d p).1 ^ 2 + (gnDelta x y d p).2 ^ 2) < tol ∨ f = 0
      then (p.1 + (gnDelta x y d p).1, p.2 + (gnDelta x y d p).2, iter)
      else gnLoop x y d tol f (iter + 1)
        (p.1 + (gnDelta x y d p).1, p.2 + (gnDelta x y d p).2) := rfl

lemma gnLoop_noconv {n : ℕ} (x y d : Fin n → ℝ) (tol : ℝ) :
    ∀ fuel : ℕ, 1 ≤ fuel → ∀ p : ℝ × ℝ, ∀ iter : ℕ,
      (∀ j, j < fuel →
        ¬ Real.sqrt ((gnDelta x y d ((gnIter x y d)^[j] p)).1 ^ 2 +
            (gnDelta x y d ((gnIter x y d)^[j] p)).2 ^ 2) < tol) →
      gnLoop x y d tol fuel iter p =
        (((gnIter x y d)^[fuel] p).1, ((gnIter x y d)^[fuel] p).2,
          iter + fuel - 1) := by
  intro fuel
  induction fuel with
  | zero => omega
  | succ f ih =>
    intro _ p iter hnc
    rw [gnLoop_succ_eq]
    rcases Nat.eq_zero_or_pos f with hf | hf
    · subst hf
      rw [if_pos (Or.inr rfl)]
      simp [gnIter]
    · have hne : ¬ (Real.sqrt ((gnDelta x y d p).1 ^ 2 +
          (gnDelta x y d p).2 ^ 2) < tol ∨ f = 0) := by
        refine not_or.mpr ⟨?_, by omega⟩
        simpa using hnc 0 (by omega)
      rw [if_neg hne]
      have hrec := ih (by omega) (gnIter x y d p) (iter + 1) (fun j hj => by
        have hj1 := hnc (j + 1) (by omega)
        simpa [Function.iterate_succ_apply] using hj1)
      rw [show ((p.1 + (gnDelta x y d p).1, p.2 + (gnDelta x y d p).2) : ℝ × ℝ) =
        gnIter x y d p from rfl]
      rw [hrec, ← Function.iterate_succ_apply]
      have harith : iter + 1 + f - 1 = iter + (f + 1) - 1 := by omega
      rw [harith]

lemma gnLoop_conv {n : ℕ} (x y d : Fin n → ℝ) (tol : ℝ) :
    ∀ j0 fuel : ℕ, j0 < fuel → ∀ p : ℝ × ℝ, ∀ iter : ℕ,
      Real.sqrt ((gnDelta x y d ((gnIter x y d)^[j0] p)).1 ^ 2 +
          (gnDelta x y d ((gnIter x y d)^[j0] p)).2 ^ 2) < tol →
      (∀ j, j < j0 →
        ¬ Real.sqrt ((gnDelta x y d ((gnIter x y d)^[j] p)).1 ^ 2 +
            (gnDelta x y d ((gnIter x y d)^[j] p)).2 ^ 2) < tol) →
      gnLoop x y d tol fuel iter p =
        (((gnIter x y d)^[j0 + 1] p).1, ((gnIter x y d)^[j0 + 1] p).2,
          iter + j0) := by
  intro j0
  induction j0 with
  | zero =>
    intro fuel hf p iter hconv _
    obtain ⟨f, rfl⟩ : ∃ f, fuel = f + 1 := ⟨fuel - 1, by omega⟩
    rw [gnLoop_succ_eq, if_pos (Or.inl (by simpa using hconv))]
    simp [gnIter]
  | succ k ih =>
    intro fuel hf p iter hconv hmin
    obtain ⟨f, rfl⟩ : ∃ f, fuel = f + 1 := ⟨fuel - 1, by omega⟩
    have hkf : k < f := by omega
    have hne : ¬ (Real.sqrt ((gnDelta x y d p).1 ^ 2 +
        (gnDelta x y d p).2 ^ 2) < tol ∨ f = 0) := by
      refine not_or.mpr ⟨?_, by omega⟩
      simpa using hmin 0 (by omega)
    rw [gnLoop_succ_eq, if_neg hne]
    have hrec := ih f hkf (gnIter x y d p) (iter + 1)
      (by simpa [Function.iterate_succ_apply] using hconv)
      (fun j hj => by
        have hj1 := hmin (j + 1) (by omega)
        simpa [Function.iterate_succ_apply] using hj1)
    rw [show ((p.1 + (gnDelta x y d p).1, p.2 + (gnDelta x y d p).2) : ℝ × ℝ) =
      gnIter x y d p from rfl]
    rw [hrec, ← Function.iterate_succ_apply]
    have harith : iter + 1 + k = iter + (k + 1) := by omega
    rw [harith]

lemma gnLoop_result {n : ℕ} (x y d : Fin n → ℝ) (tol : ℝ) :
    ∀ fuel : ℕ, 1 ≤ fuel → ∀ p : ℝ × ℝ, ∀ iter : ℕ,
      ∃ k, 1 ≤ k ∧ k ≤ fuel ∧
        gnLoop x y d tol fuel iter p =
          (((gnIter x y d)^[k] p).1, ((gnIter x y d)^[k] p).2,
            iter + k - 1) := by
  intro fuel
  induction fuel with
  | zero => omega
  | succ f ih =>
    intro _ p iter
    by_cases hc : Real.sqrt ((gnDelta x y d p).1 ^ 2 +
        (gnDelta x y d p).2 ^ 2) < tol ∨ f = 0
    · refine ⟨1, le_rfl, by omega, ?_⟩
      rw [gnLoop_succ_eq, if_pos hc]
      simp [gnIter]
    · have hf : 1 ≤ f := by
        rcases not_or.mp hc with ⟨_, hf0⟩
        omega
      obtain ⟨k, hk1, hk2, hEq⟩ := ih hf (gnIter x y d p) (iter + 1)
      refine ⟨k + 1, by omega, by omega, ?_⟩
      rw [gnLoop_succ_eq, if_neg hc]
      rw [show ((p.1 + (gnDelta x y d p).1, p.2 + (gnDelta x y d p).2) : ℝ × ℝ) =
        gnIter x y d p from rfl]
      rw [hEq, ← Function.iterate_succ_apply]
      have harith : iter + 1 + k - 1 = iter + (k + 1) - 1 := by omega
      rw [harith]

lemma calculate_eq_loop {n : ℕ} (x y d : Fin n → ℝ) (tol : ℝ) (m : ℤ)
    (hm : 1 ≤ m) :
    calculate_anchor_position x y d tol m =
      some (gnLoop x y d tol m.toNat 0 (npMean x, npMean y)) := by
  rw [calculate_anchor_position, if_neg (by omega)]

/-- Claim C1: `calculate_anchor_position` starts from the centroid of the
station positions, and each loop pass adds to the current estimate the
update `Δ` which is the minimum-norm least-squares solution of the
system `A·Δ = b` with row i of `A` equal to `[2(xᵢ−x̂), 2(yᵢ−ŷ)]` and
`bᵢ = (xᵢ−x̂)² + (yᵢ−ŷ)² − dᵢ²`; the returned estimate is the point of
this trajectory reached after the executed passes. -/
theorem anchor_gauss_newton {n : ℕ} (x y d : Fin n → ℝ) (tol : ℝ)
    (m : ℤ) (hm : 1 ≤ m) :
    traj x y d 0 = (npMean x, npMean y) ∧
    (∀ j, traj x y d (j + 1) =
      ((traj x y d j).1 + (gnDelta x y d (traj x y d j)).1,
       (traj x y d j).2 + (gnDelta x y d (traj x y d j)).2)) ∧
    (∀ p : ℝ × ℝ, IsMinNormLSSol
      (fun i => 2 * (x i - p.1)) (fun i => 2 * (y i - p.2))
      (fun i => (x i - p.1) ^ 2 + (y i - p.2) ^ 2 - d i ^ 2)
      (gnDelta x y d p)) ∧
    (∃ k, 1 ≤ k ∧ k ≤ m.toNat ∧
      calculate_anchor_position x y d tol m =
        some ((traj x y d k).1, (traj x y d k).2, k - 1)) := by
  refine ⟨rfl, fun j => ?_, fun p => lstsq2_isMinNormLS _ _ _, ?_⟩
  · rw [traj, Function.iterate_succ_apply']
    rfl
  · obtain ⟨k, hk1, hk2, hEq⟩ := gnLoop_result x y d tol m.toNat
      (by omega) (npMean x, npMean y) 0
    refine ⟨k, hk1, hk2, ?_⟩
    rw [calculate_eq_loop x y d tol m hm, hEq]
    rw [show (0 + k - 1) = k - 1 by omega]
    rfl

/-- Witness for C1 at one station at the origin with zero range,
tolerance 1 and a single allowed iteration. -/
theorem anchor_gauss_newton_witness :
    (1 : ℤ) ≤ 1 ∧
    (traj (fun _ => (0 : ℝ) : Fin 1 → ℝ) (fun _ => 0) (fun _ => 0) 0 =
        (npMean (fun _ => (0 : ℝ) : Fin 1 → ℝ), npMean (fun _ => (0 : ℝ) : Fin 1 → ℝ)) ∧
      (∀ j, traj (fun _ => (0 : ℝ) : Fin 1 → ℝ) (fun _ => 0) (fun _ => 0) (j + 1) =
        ((traj (fun _ => (0 : ℝ) : Fin 1 → ℝ) (fun _ => 0) (fun _ => 0) j).1 +
            (gnDelta (fun _ => (0 : ℝ) : Fin 1 → ℝ) (fun _ => 0) (fun _ => 0)
              (traj (fun _ => (0 : ℝ) : Fin 1 → ℝ) (fun _ => 0) (fun _ => 0) j)).1,
         (traj (fun _ => (0 : ℝ) : Fin 1 → ℝ) (fun _ => 0) (fun _ => 0) j).2 +
            (gnDelta (fun _ => (0 : ℝ) : Fin 1 → ℝ) (fun _ => 0) (fun _ => 0)
              (traj (fun _ => (0 : ℝ) : Fin 1 → ℝ) (fun _ => 0) (fun _ => 0) j)).2)) ∧
      (∀ p : ℝ × ℝ, IsMinNormLSSol
        (fun i : Fin 1 => 2 * ((0 : ℝ) - p.1)) (fun i : Fin 1 => 2 * ((0 : ℝ) - p.2))
        (fun i : Fin 1 => ((0 : ℝ) - p.1) ^ 2 + ((0 : ℝ) - p.2) ^ 2 - (0 : ℝ) ^ 2)
        (gnDelta (fun _ => (0 : ℝ) : Fin 1 → ℝ) (fun _ => 0) (fun _ => 0) p)) ∧
      (∃ k, 1 ≤ k ∧ k ≤ (1 : ℤ).toNat ∧
        calculate_anchor_position (fun _ => (0 : ℝ) : Fin 1 → ℝ) (fun _ => 0)
            (fun _ => 0) 1 1 =
          some ((traj (fun _ => (0 : ℝ) : Fin 1 → ℝ) (fun _ => 0) (fun _ => 0) k).1,
            (traj (fun _ => (0 : ℝ) : Fin 1 → ℝ) (fun _ => 0) (fun _ => 0) k).2,
            k - 1))) :=
  ⟨le_refl 1, anchor_gauss_newton (fun _ => 0) (fun _ => 0) (fun _ => 0) 1 1 (le_refl 1)⟩

/-- Claim C2: the solver stops as converged at the first loop pass whose
update norm is below `tol` (defaults `default_tol = 0.01` and
`default_max_iter = 100` in the source), reporting that pass's
zero-based index; when no pass converges it executes all `max_iter`
passes and reports `max_iter − 1`. -/
theorem anchor_iteration_count {n : ℕ} (x y d : Fin n → ℝ) (tol : ℝ)
    (m : ℤ) (hm : 1 ≤ m) :
    ((∀ j, j < m.toNat → ¬ convAt x y d tol j) →
      calculate_anchor_position x y d tol m =
        some ((traj x y d m.toNat).1, (traj x y d m.toNat).2, m.toNat - 1)) ∧
    (∀ j0, j0 < m.toNat → convAt x y d tol j0 →
      (∀ j, j < j0 → ¬ convAt x y d tol j) →
      calculate_anchor_position x y d tol m =
        some ((traj x y d (j0 + 1)).1, (traj x y d (j0 + 1)).2, j0)) := by
  constructor
  · intro hnc
    rw [calculate_eq_loop x y d tol m hm,
      gnLoop_noconv x y d tol m.toNat (by omega) (npMean x, npMean y) 0
        (fun j hj => hnc j hj)]
    rw [show (0 + m.toNat - 1) = m.toNat - 1 by omega]
    rfl
  · intro j0 hj0 hconv hmin
    rw [calculate_eq_loop x y d tol m hm,
      gnLoop_conv x y d tol j0 m.toNat hj0 (npMean x, npMean y) 0
        hconv (fun j hj => hmin j hj)]
    rw [show (0 + j0) = j0 by omega]
    rfl

/-- Witness for C2 at one station at the origin with zero range,
tolerance 1 and a single allowed iteration. -/
theorem anchor_iteration_count_witness :
    (1 : ℤ) ≤ 1 ∧
    (((∀ j, j < (1 : ℤ).toNat →
        ¬ convAt (fun _ => (0 : ℝ) : Fin 1 → ℝ) (fun _ => 0) (fun _ => 0) 1 j) →
      calculate_anchor_position (fun _ => (0 : ℝ) : Fin 1 → ℝ) (fun _ => 0)
          (fun _ => 0) 1 1 =
        some ((traj (fun _ => (0 : ℝ) : Fin 1 → ℝ) (fun _ => 0) (fun _ => 0)
            (1 : ℤ).toNat).1,
          (traj (fun _ => (0 : ℝ) : Fin 1 → ℝ) (fun _ => 0) (fun _ => 0)
            (1 : ℤ).toNat).2,
          (1 : ℤ).toNat - 1)) ∧
    (∀ j0, j0 < (1 : ℤ).toNat →
      convAt (fun _ => (0 : ℝ) : Fin 1 → ℝ) (fun _ => 0) (fun _ => 0) 1 j0 →
      (∀ j, j < j0 →
        ¬ convAt (fun _ => (0 : ℝ) : Fin 1 → ℝ) (fun _ => 0) (fun _ => 0) 1 j) →
      calculate_anchor_position (fun _ => (0 : ℝ) : Fin 1 → ℝ) (fun _ => 0)
          (fun _ => 0) 1 1 =
        some ((traj (fun _ => (0 : ℝ) : Fin 1 → ℝ) (fun _ => 0) (fun _ => 0)
            (j0 + 1)).1,
          (traj (fun _ => (0 : ℝ) : Fin 1 → ℝ) (fun _ => 0) (fun _ => 0)
            (j0 + 1)).2,
          j0))) :=
  ⟨le_refl 1, anchor_iteration_count (fun _ => 0) (fun _ => 0) (fun _ => 0) 1 1 (le_refl 1)⟩

lemma sdot_comp {n : ℕ} (σ : Equiv.Perm (Fin n)) (f g : Fin n → ℝ) :
    sdot (fun i => f (σ i)) (fun i => g (σ i)) = sdot f g := by
  simp only [sdot]
  exact Equiv.sum_comp σ fun i => f i * g i

lemma lstsq2_comp {n : ℕ} (σ : Equiv.Perm (Fin n)) (u v b : Fin n → ℝ) :
    lstsq2 (fun i => u (σ i)) (fun i => v (σ i)) (fun i => b (σ i)) =
      lstsq2 u v b := by
  rw [lstsq2, lstsq2, sdot_comp σ u u, sdot_comp σ u v, sdot_comp σ v v,
    sdot_comp σ u b, sdot_comp σ v b]

lemma gnDelta_comp {n : ℕ} (σ : Equiv.Perm (Fin n)) (x y d : Fin n → ℝ)
    (p : ℝ × ℝ) :
    gnDelta (fun i => x (σ i)) (fun i => y (σ i)) (fun i => d (σ i)) p =
      gnDelta x y d p := by
  simp only [gnDelta]
  exact lstsq2_comp σ (fun i => 2 * (x i - p.1)) (fun i => 2 * (y i - p.2))
    (fun i => (x i - p.1) ^ 2 + (y i - p.2) ^ 2 - d i ^ 2)

lemma npMean_comp {n : ℕ} (σ : Equiv.Perm (Fin n)) (f : Fin n → ℝ) :
    npMean (fun i => f (σ i)) = npMean f := by
  simp only [npMean]
  rw [Equiv.sum_comp σ f]

lemma gnLoop_comp {n : ℕ} (σ : Equiv.Perm (Fin n)) (x y d : Fin n → ℝ)
    (tol : ℝ) :
    ∀ fuel iter : ℕ, ∀ p : ℝ × ℝ,
      gnLoop (fun i => x (σ i)) (fun i => y (σ i)) (fun i => d (σ i))
          tol fuel iter p =
        gnLoop x y d tol fuel iter p := by
  intro fuel
  induction fuel with
  | zero => intro iter p; rfl
  | succ f ih =>
    intro iter p
    rw [gnLoop_succ_eq, gnLoop_succ_eq, gnDelta_comp σ x y d p]
    by_cases hc : Real.sqrt ((gnDelta x y d p).1 ^ 2 +
        (gnDelta x y d p).2 ^ 2) < tol ∨ f = 0
    · rw [if_pos hc, if_pos hc]
    · rw [if_neg hc, if_neg hc, ih]

/-- Claim C9: applying a permutation simultaneously to the station x, y and
range vectors leaves the whole result of `calculate_anchor_position` —
estimate and iteration count — unchanged. -/
theorem anchor_position_perm_invariant {n : ℕ} (σ : Equiv.Perm (Fin n))
    (x y d : Fin n → ℝ) (tol : ℝ) (m : ℤ) :
    calculate_anchor_position (fun i => x (σ i)) (fun i => y (σ i))
        (fun i => d (σ i)) tol m =
      calculate_anchor_position x y d tol m := by
  rw [calculate_anchor_position, calculate_anchor_position,
    npMean_comp σ x, npMean_comp σ y, gnLoop_comp σ x y d tol]

/-- Claim C10: when `max_iter ≤ 0` the embedded solver fails (the Python
loop body never runs, leaving the loop variable unbound at the
`return`, raising `NameError`, embedded as `none`); for `max_iter ≥ 1`
it returns a result. -/
theorem anchor_position_needs_iteration {n : ℕ} (x y d : Fin n → ℝ)
    (tol : ℝ) (m : ℤ) :
    (m ≤ 0 → calculate_anchor_position x y d tol m = none) ∧
    (1 ≤ m → ∃ r : ℝ × ℝ × ℕ,
      calculate_anchor_position x y d tol m = some r) := by
  constructor
  · intro h
    rw [calculate_anchor_position, if_pos h]
  · intro h
    exact ⟨_, by rw [calculate_anchor_position, if_neg (by omega)]⟩

/-- Witness for C10 at one station at the origin, evaluating the
solver at `max_iter = 0` and at `max_iter = 1`. -/
theorem anchor_position_needs_iteration_witness :
    ((0 : ℤ) ≤ 0 ∧
      calculate_anchor_position (fun _ => (0 : ℝ) : Fin 1 → ℝ) (fun _ => 0)
        (fun _ => 0) 0.01 0 = none) ∧
    ((1 : ℤ) ≤ 1 ∧
      ∃ r : ℝ × ℝ × ℕ,
        calculate_anchor_position (fun _ => (0 : ℝ) : Fin 1 → ℝ) (fun _ => 0)
          (fun _ => 0) 0.01 1 = some r) :=
  ⟨⟨le_refl 0,
    (anchor_position_needs_iteration (fun _ => 0) (fun _ => 0) (fun _ => 0)
      0.01 0).1 (le_refl 0)⟩,
   ⟨le_refl 1,
    (anchor_position_needs_iteration (fun _ => 0) (fun _ => 0) (fun _ => 0)
      0.01 1).2 (le_refl 1)⟩⟩

lemma scenario_delta0 (d : Fin 3 → ℝ) (h0 : d 0 ^ 2 = 5000)
    (h1 : d 1 ^ 2 = 5000) (h2 : d 2 ^ 2 = 5000) :
    gnDelta (![0, 100, 0]) (![0, 0, 100]) d ((100 : ℝ)/3, (100 : ℝ)/3) =
      ((50 : ℝ)/3, (50 : ℝ)/3) := by
  simp only [gnDelta, lstsq2, sdot, Fin.sum_univ_three, Matrix.cons_val_zero,
    Matrix.cons_val_one, Matrix.cons_val_two, Matrix.head_cons,
    Matrix.tail_cons, h0, h1, h2]
  split_ifs with hcond
  · norm_num
  · exfalso
    apply hcond
    norm_num
  · exfalso
    apply hcond
    norm_num

lemma scenario_delta1 (d : Fin 3 → ℝ) (h0 : d 0 ^ 2 = 5000)
    (h1 : d 1 ^ 2 = 5000) (h2 : d 2 ^ 2 = 5000) :
    gnDelta (![0, 100, 0]) (![0, 0, 100]) d ((50 : ℝ), (50 : ℝ)) =
      ((0 : ℝ), (0 : ℝ)) := by
  simp only [gnDelta, lstsq2, sdot, Fin.sum_univ_three, Matrix.cons_val_zero,
    Matrix.cons_val_one, Matrix.cons_val_two, Matrix.head_cons,
    Matrix.tail_cons, h0, h1, h2]
  split_ifs with hcond
  · norm_num
  · exfalso
    apply hcond
    norm_num
  · exfalso
    apply hcond
    norm_num

lemma scenario_solver (d : Fin 3 → ℝ) (h0 : d 0 ^ 2 = 5000)
    (h1 : d 1 ^ 2 = 5000) (h2 : d 2 ^ 2 = 5000) :
    calculate_anchor_position (![0, 100, 0]) (![0, 0, 100]) d
      default_tol default_max_iter = some (50, 50, 1) := by
  have hm1 : npMean (![0, 100, 0] : Fin 3 → ℝ) = 100/3 := by
    simp [npMean, Fin.sum_univ_three]
  have hm2 : npMean (![0, 0, 100] : Fin 3 → ℝ) = 100/3 := by
    simp [npMean, Fin.sum_univ_three]
  have step1 : gnLoop (![0, 100, 0]) (![0, 0, 100]) d default_tol 100 0
      ((100 : ℝ)/3, (100 : ℝ)/3) =
      gnLoop (![0, 100, 0]) (![0, 0, 100]) d default_tol 99 1
        ((50 : ℝ), (50 : ℝ)) := by
    rw [show (100 : ℕ) = 99 + 1 from rfl, gnLoop_succ_eq,
      scenario_delta0 d h0 h1 h2]
    have hval : (((50 : ℝ)/3, (50 : ℝ)/3).1 ^ 2 +
        ((50 : ℝ)/3, (50 : ℝ)/3).2 ^ 2) = 5000/9 := by
      norm_num
    have hne : ¬ (Real.sqrt (((50 : ℝ)/3, (50 : ℝ)/3).1 ^ 2 +
        ((50 : ℝ)/3, (50 : ℝ)/3).2 ^ 2) < default_tol ∨ (99 : ℕ) = 0) := by
      rw [hval]
      refine not_or.mpr ⟨not_lt.mpr ?_, by norm_num⟩
      exact (Real.le_sqrt' (by norm_num [default_tol])).mpr
        (by norm_num [default_tol])
    rw [if_neg hne]
    norm_num
  have step2 : gnLoop (![0, 100, 0]) (![0, 0, 100]) d default_tol 99 1
      ((50 : ℝ), (50 : ℝ)) = ((50 : ℝ), (50 : ℝ), 1) := by
    rw [show (99 : ℕ) = 98 + 1 from rfl, gnLoop_succ_eq,
      scenario_delta1 d h0 h1 h2]
    have hz : (((0 : ℝ), (0 : ℝ)).1 ^ 2 + ((0 : ℝ), (0 : ℝ)).2 ^ 2) = 0 := by
      norm_num
    have hpos : Real.sqrt (((0 : ℝ), (0 : ℝ)).1 ^ 2 +
        ((0 : ℝ), (0 : ℝ)).2 ^ 2) < default_tol ∨ (98 : ℕ) = 0 := by
      left
      rw [hz, Real.sqrt_zero]
      norm_num [default_tol]
    rw [if_pos hpos]
    norm_num
  rw [calculate_anchor_position,
    if_neg (by simp only [default_max_iter]; norm_num),
    show default_max_iter.toNat = 100 from rfl, hm1, hm2, step1, step2]

/-- Claim C3: for stations at (0,0), (100,0), (0,100) with ranges computed
exactly from the true anchor (50,50), the solver with the default
tolerance and iteration cap returns exactly (50, 50) after reporting
iteration index 1 (< 20), and the RMS residual at that estimate is
exactly 0. -/
theorem anchor_three_station_scenario :
    ∃ xi yi : ℝ, ∃ k : ℕ,
      calculate_anchor_position (![0, 100, 0]) (![0, 0, 100])
          (fun i => Real.sqrt (((![0, 100, 0] : Fin 3 → ℝ) i - 50) ^ 2 +
            ((![0, 0, 100] : Fin 3 → ℝ) i - 50) ^ 2))
          default_tol default_max_iter = some (xi, yi, k) ∧
      |xi - 50| ≤ 1e-3 ∧ |yi - 50| ≤ 1e-3 ∧ k < 20 ∧
      rms_error (xi, yi) (![0, 100, 0]) (![0, 0, 100])
        (fun i => Real.sqrt (((![0, 100, 0] : Fin 3 → ℝ) i - 50) ^ 2 +
          ((![0, 0, 100] : Fin 3 → ℝ) i - 50) ^ 2)) = 0 := by
  have h0 : (fun i => Real.sqrt (((![0, 100, 0] : Fin 3 → ℝ) i - 50) ^ 2 +
      ((![0, 0, 100] : Fin 3 → ℝ) i - 50) ^ 2)) 0 ^ 2 = 5000 := by
    show Real.sqrt (((![0, 100, 0] : Fin 3 → ℝ) 0 - 50) ^ 2 +
      ((![0, 0, 100] : Fin 3 → ℝ) 0 - 50) ^ 2) ^ 2 = 5000
    rw [show (((![0, 100, 0] : Fin 3 → ℝ) 0 - 50) ^ 2 +
      ((![0, 0, 100] : Fin 3 → ℝ) 0 - 50) ^ 2) = 5000 by norm_num [Matrix.cons_val_zero]]
    exact Real.sq_sqrt (by norm_num)
  have h1 : (fun i => Real.sqrt (((![0, 100, 0] : Fin 3 → ℝ) i - 50) ^ 2 +
      ((![0, 0, 100] : Fin 3 → ℝ) i - 50) ^ 2)) 1 ^ 2 = 5000 := by
    show Real.sqrt (((![0, 100, 0] : Fin 3 → ℝ) 1 - 50) ^ 2 +
      ((![0, 0, 100] : Fin 3 → ℝ) 1 - 50) ^ 2) ^ 2 = 5000
    rw [show (((![0, 100, 0] : Fin 3 → ℝ) 1 - 50) ^ 2 +
      ((![0, 0, 100] : Fin 3 → ℝ) 1 - 50) ^ 2) = 5000 by
        norm_num [Matrix.cons_val_one, Matrix.head_cons]]
    exact Real.sq_sqrt (by norm_num)
  have h2 : (fun i => Real.sqrt (((![0, 100, 0] : Fin 3 → ℝ) i - 50) ^ 2 +
      ((![0, 0, 100] : Fin 3 → ℝ) i - 50) ^ 2)) 2 ^ 2 = 5000 := by
    show Real.sqrt (((![0, 100, 0] : Fin 3 → ℝ) 2 - 50) ^ 2 +
      ((![0, 0, 100] : Fin 3 → ℝ) 2 - 50) ^ 2) ^ 2 = 5000
    rw [show (((![0, 100, 0] : Fin 3 → ℝ) 2 - 50) ^ 2 +
      ((![0, 0, 100] : Fin 3 → ℝ) 2 - 50) ^ 2) = 5000 by
        norm_num [Matrix.cons_val_two, Matrix.tail_cons, Matrix.head_cons]]
    exact Real.sq_sqrt (by norm_num)
  refine ⟨50, 50, 1, scenario_solver _ h0 h1 h2, by norm_num, by norm_num,
    by norm_num, ?_⟩
  simp [rms_error, Fin.sum_univ_three]

end Survey
